import Mathlib

/-!
Shallow embedding of `src/swing_notifier.py` (the signal-evaluation and
position-state-machine engine) together with theorems settling the frozen
claims about it.

Modelling conventions:
* Prices are exact rationals (`ℚ`); Python floats are used by the source only
  for finite arithmetic on quoted prices, which this development treats exactly.
* Bar timestamps are `ℕ` (the source only ever compares the stringified
  timestamp for equality and stores it).
* A pandas value that may be `NaN` (a rolling mean over too little history)
  is an `Option ℚ`; comparisons against `NaN` are `false` in pandas, which is
  what the `oLt`/`oLe` helpers implement.  RSI is total because the source
  ends with `fillna(50)`.
* `send_line` only transports text; an emitted alert is modelled as a value of
  the `Alert` inductive in the returned alert list.
-/

set_option autoImplicit false
set_option maxRecDepth 100000

namespace SwingNotifier

/-- Position side, the `st["side"]` values `"long"` / `"short"` of the source. -/
inductive Side where
  | long
  | short
deriving DecidableEq, Repr

/-- The alerts `evaluate_ticker` (and the spec-modelled manual reset) can emit,
one constructor per distinct `send_line` call site. -/
inductive Alert where
  | entry (s : Side)
  | stopLoss (s : Side)
  | takeProfit (s : Side) (level : ℕ)
  | exitCandidate (s : Side)
  | manualReset
deriving DecidableEq, Repr

/-- The per-ticker persisted state dictionary of the source (lines 231-240).
`opn` is the `"open"` key (`open` is a Lean keyword). -/
structure TickerState where
  opn : Bool
  side : Option Side
  entry_price : Option ℚ
  entry_time : Option ℕ
  sl : Option ℚ
  tp1_sent : Bool
  tp2_sent : Bool
  last_signal_time : Option ℕ
deriving DecidableEq, Repr

/-- The default state a ticker gets the first time it is seen (line 231-240). -/
def initState : TickerState :=
  { opn := false, side := none, entry_price := none, entry_time := none,
    sl := none, tp1_sent := false, tp2_sent := false, last_signal_time := none }

/-- One OHLC bar (the columns of the source actually read: `High`, `Low`,
`Close`, and the index timestamp). -/
structure Bar where
  ts : ℕ
  high : ℚ
  low : ℚ
  close : ℚ
deriving DecidableEq, Repr

/-- The persisted state mapping (the JSON dict `state`), as an association
list from ticker symbol to state. -/
def StateMap : Type := List (String × TickerState)

instance : DecidableEq StateMap := by
  unfold StateMap
  infer_instance

/-- Dict lookup `state.get(ticker)`. -/
def getSt : StateMap → String → Option TickerState
  | [], _ => none
  | (k, v) :: r, t => if k = t then some v else getSt r t

/-- Dict lookup with default, `state.get(ticker, default)`. -/
def getStD (m : StateMap) (t : String) (d : TickerState) : TickerState :=
  (getSt m t).getD d

/-- Dict assignment `state[ticker] = st` (replace if present, else append). -/
def setSt : StateMap → String → TickerState → StateMap
  | [], k, v => [(k, v)]
  | (k0, v0) :: r, k, v =>
    if k0 = k then (k, v) :: r else (k0, v0) :: setSt r k v

/-! ### Configuration constants (lines 50-65 of the source) -/

def DAILY_SHORT : ℕ := 20
def DAILY_LONG : ℕ := 50
def INTRA_SHORT : ℕ := 5
def INTRA_LONG : ℕ := 20
def RSI_PERIOD : ℕ := 14
def RSI_BUY_MAX : ℚ := 40
def RSI_SELL_MIN : ℚ := 60
def TP1 : ℚ := 3 / 100
def TP2 : ℚ := 5 / 100
def SWING_LOOKBACK : ℕ := 20
def SL_BUFFER : ℚ := 1 / 1000

/-! ### Indicator library -/

/-- Pandas comparison `a < b` where either side may be `NaN` (`none`):
any comparison involving `NaN` is `False`. -/
def oLt : Option ℚ → Option ℚ → Bool
  | some a, some b => decide (a < b)
  | _, _ => false

/-- Pandas comparison `a <= b` with `NaN` semantics. -/
def oLe : Option ℚ → Option ℚ → Bool
  | some a, some b => decide (a ≤ b)
  | _, _ => false

/-- Pandas comparison `a > b` with `NaN` semantics. -/
def oGt (a b : Option ℚ) : Bool := oLt b a

/-- Pandas comparison `a >= b` with `NaN` semantics. -/
def oGe (a b : Option ℚ) : Bool := oLe b a

/-- `series.rolling(w).mean()` evaluated at index `i`: defined (`some`) only
when a full window of `w` values ending at `i` exists. -/
def maAt (w : ℕ) (xs : List ℚ) (i : ℕ) : Option ℚ :=
  if w ≤ i + 1 ∧ i < xs.length then
    some (((xs.take (i + 1)).drop (i + 1 - w)).sum / (w : ℚ))
  else none

/-- The per-delta gains `np.where(delta > 0, delta, 0.0)`; the first delta is
`NaN` in pandas (`series.diff()`), and `NaN > 0` is `False`, so the first
gain is `0`. -/
def gains : List ℚ → List ℚ
  | [] => []
  | x :: r => 0 :: List.zipWith (fun a b => if a < b then b - a else 0) (x :: r) r

/-- The per-delta losses `np.where(delta < 0, -delta, 0.0)`; first loss `0`. -/
def losses : List ℚ → List ℚ
  | [] => []
  | x :: r => 0 :: List.zipWith (fun a b => if b < a then a - b else 0) (x :: r) r

/-- `series.ewm(alpha, adjust=False).mean()` starting from accumulator `y`:
`y0 = x0`, `y(t) = (1-alpha)*y(t-1) + alpha*x(t)`. -/
def ewmAux (alpha : ℚ) (y : ℚ) : List ℚ → List ℚ
  | [] => [y]
  | x :: r => y :: ewmAux alpha ((1 - alpha) * y + alpha * x) r

/-- `series.ewm(alpha, adjust=False).mean()` on a whole series. -/
def ewm (alpha : ℚ) : List ℚ → List ℚ
  | [] => []
  | x :: r => ewmAux alpha x r

/-- One RSI sample from a smoothed gain/loss pair.  The source computes
`rs = avg_gain / avg_loss.replace(0, nan)` and `100 - 100/(1+rs)`, then
`fillna(50)`: a zero average loss makes `rs` (hence the RSI sample) `NaN`,
which the final `fillna` turns into `50`. -/
def rsiSample (g l : ℚ) : ℚ :=
  if l = 0 then 50 else 100 - 100 / (1 + g / l)

/-- The `rsi` function of the source (lines 124-133), Wilder RSI by
exponential smoothing with `alpha = 1/period`, as a whole series. -/
def rsiList (xs : List ℚ) (period : ℕ) : List ℚ :=
  List.zipWith rsiSample
    (ewm (1 / (period : ℚ)) (gains xs))
    (ewm (1 / (period : ℚ)) (losses xs))

/-- Minimum of a list of rationals; the `[]` case is never reached by the
callers (they guard on a non-empty frame, as `min()` on empty raises). -/
def listMin : List ℚ → ℚ
  | [] => 0
  | x :: r => r.foldl min x

/-- Maximum of a list of rationals, same convention. -/
def listMax : List ℚ → ℚ
  | [] => 0
  | x :: r => r.foldl max x

/-- `recent_swing_low` (lines 144-145): min of `Low` over the last `lookback`
bars, or over all bars when fewer exist. -/
def recent_swing_low (bars : List Bar) (lookback : ℕ) : ℚ :=
  if lookback ≤ bars.length then
    listMin ((bars.map Bar.low).drop (bars.length - lookback))
  else listMin (bars.map Bar.low)

/-- `recent_swing_high` (lines 148-149). -/
def recent_swing_high (bars : List Bar) (lookback : ℕ) : ℚ :=
  if lookback ≤ bars.length then
    listMax ((bars.map Bar.high).drop (bars.length - lookback))
  else listMax (bars.map Bar.high)

/-! ### Signal rules -/

/-- `crossed_up` (lines 136-137). -/
def crossed_up (prev_a prev_b curr_a curr_b : Option ℚ) : Bool :=
  oLe prev_a prev_b && oGt curr_a curr_b

/-- `crossed_down` (lines 140-141). -/
def crossed_down (prev_a prev_b curr_a curr_b : Option ℚ) : Bool :=
  oGe prev_a prev_b && oLt curr_a curr_b

/-- One intraday indicator row (`MA_S`, `MA_L`, `Close`, `RSI`); the moving
averages may be undefined (`NaN`), `Close` and `RSI` never are (`Close` after
`dropna`, `RSI` after `fillna`). -/
structure Snap where
  maS : Option ℚ
  maL : Option ℚ
  close : ℚ
  rsiv : ℚ
deriving DecidableEq, Repr

/-- The daily indicator row used by the trend filter (`MA_S`, `MA_L`). -/
structure DSnap where
  maS : Option ℚ
  maL : Option ℚ
deriving DecidableEq, Repr

/-- Everything the per-ticker decision logic (lines 219-359) reads from the
bar data: the daily trend row, the last two intraday rows, the last bar
timestamp and the swing levels. -/
structure Ctx where
  d_curr : DSnap
  i_prev : Snap
  i_curr : Snap
  last_ts : ℕ
  swingLow : ℚ
  swingHigh : ℚ
deriving DecidableEq, Repr

/-- `buy_signal` (lines 243-248): `False` unless the daily trend allows
buying, then golden cross AND close above the long MA AND the RSI reflex. -/
def buySignal (c : Ctx) : Bool :=
  let buy_allowed := oGt c.d_curr.maS c.d_curr.maL
  if buy_allowed then
    crossed_up c.i_prev.maS c.i_prev.maL c.i_curr.maS c.i_curr.maL
      && oGt (some c.i_curr.close) c.i_curr.maL
      && (decide (c.i_prev.rsiv ≤ RSI_BUY_MAX) && decide (c.i_prev.rsiv < c.i_curr.rsiv))
  else false

/-- `sell_signal` (lines 250-255), the short-side mirror. -/
def sellSignal (c : Ctx) : Bool :=
  let sell_allowed := oLt c.d_curr.maS c.d_curr.maL
  if sell_allowed then
    crossed_down c.i_prev.maS c.i_prev.maL c.i_curr.maS c.i_curr.maL
      && oLt (some c.i_curr.close) c.i_curr.maL
      && (decide (RSI_SELL_MIN ≤ c.i_prev.rsiv) && decide (c.i_curr.rsiv < c.i_prev.rsiv))
  else false

/-! ### Position state machine -/

/-- The state written by a long entry (lines 262-269). -/
def entryStateLong (c : Ctx) : TickerState :=
  { opn := true, side := some Side.long,
    entry_price := some c.i_curr.close, entry_time := some c.last_ts,
    sl := some (c.swingLow * (1 - SL_BUFFER)),
    tp1_sent := false, tp2_sent := false, last_signal_time := some c.last_ts }

/-- The state written by a short entry (lines 280-287). -/
def entryStateShort (c : Ctx) : TickerState :=
  { opn := true, side := some Side.short,
    entry_price := some c.i_curr.close, entry_time := some c.last_ts,
    sl := some (c.swingHigh * (1 + SL_BUFFER)),
    tp1_sent := false, tp2_sent := false, last_signal_time := some c.last_ts }

/-- The open-long checks (lines 301-328), run in source order on the mutable
state: stop-loss, take-profit 1, take-profit 2, exit cross.  `slv`/`ep` are
the (necessarily set) `st["sl"]` and `st["entry_price"]`. -/
def openStepLong (c : Ctx) (same_bar_sent : Bool) (slv ep : ℚ)
    (st : TickerState) : TickerState × List Alert :=
  let price := c.i_curr.close
  let exit_cross_long :=
    crossed_down c.i_prev.maS c.i_prev.maL c.i_curr.maS c.i_curr.maL
  let r1 : TickerState × List Alert :=
    if price ≤ slv then
      ({ st with opn := false, side := none }, [Alert.stopLoss Side.long])
    else (st, [])
  let r2 : TickerState × List Alert :=
    if !r1.1.tp1_sent && decide (ep * (1 + TP1) ≤ price) then
      ({ r1.1 with tp1_sent := true }, r1.2 ++ [Alert.takeProfit Side.long 1])
    else r1
  let r3 : TickerState × List Alert :=
    if !r2.1.tp2_sent && decide (ep * (1 + TP2) ≤ price) then
      ({ r2.1 with tp2_sent := true }, r2.2 ++ [Alert.takeProfit Side.long 2])
    else r2
  if exit_cross_long && !same_bar_sent then
    ({ r3.1 with last_signal_time := some c.last_ts },
      r3.2 ++ [Alert.exitCandidate Side.long])
  else r3

/-- The open-short checks (lines 330-357), the mirror image. -/
def openStepShort (c : Ctx) (same_bar_sent : Bool) (slv ep : ℚ)
    (st : TickerState) : TickerState × List Alert :=
  let price := c.i_curr.close
  let exit_cross_short :=
    crossed_up c.i_prev.maS c.i_prev.maL c.i_curr.maS c.i_curr.maL
  let r1 : TickerState × List Alert :=
    if slv ≤ price then
      ({ st with opn := false, side := none }, [Alert.stopLoss Side.short])
    else (st, [])
  let r2 : TickerState × List Alert :=
    if !r1.1.tp1_sent && decide (price ≤ ep * (1 - TP1)) then
      ({ r1.1 with tp1_sent := true }, r1.2 ++ [Alert.takeProfit Side.short 1])
    else r1
  let r3 : TickerState × List Alert :=
    if !r2.1.tp2_sent && decide (price ≤ ep * (1 - TP2)) then
      ({ r2.1 with tp2_sent := true }, r2.2 ++ [Alert.takeProfit Side.short 2])
    else r2
  if exit_cross_short && !same_bar_sent then
    ({ r3.1 with last_signal_time := some c.last_ts },
      r3.2 ++ [Alert.exitCandidate Side.short])
  else r3

/-- The per-ticker decision step (lines 242-357): given the indicator context
and the stored state, the next state and the alerts sent.

On an open state whose `sl` or `entry_price` is unset the source would raise
a `TypeError` on the `None` comparison; the driver catches it, so such a
(never program-written) corrupt record has no effect; modelled as a no-op.
Every theorem about open positions assumes the fields are set. -/
def evalCore (c : Ctx) (st : TickerState) : TickerState × List Alert :=
  let same_bar_sent : Bool := decide (st.last_signal_time = some c.last_ts)
  if !st.opn then
    if buySignal c && !same_bar_sent then
      (entryStateLong c, [Alert.entry Side.long])
    else if sellSignal c && !same_bar_sent then
      (entryStateShort c, [Alert.entry Side.short])
    else (st, [])
  else
    match st.side with
    | some Side.long =>
      match st.sl, st.entry_price with
      | some slv, some ep => openStepLong c same_bar_sent slv ep st
      | _, _ => (st, [])
    | some Side.short =>
      match st.sl, st.entry_price with
      | some slv, some ep => openStepShort c same_bar_sent slv ep st
      | _, _ => (st, [])
    | none => (st, [])

/-! ### Indicator pipeline (lines 198-228) -/

/-- The context computed by `evaluate_ticker` before the decision step:
`none` models the early `return`s (insufficient data, lines 204-206, and the
`get_last_two` guards, lines 217-218 and 224-225; the latter are subsumed by
the former).  `dropna` is not modelled: input bars carry no missing values. -/
def computeCtx (daily intra : List Bar) : Option Ctx :=
  if daily.length < max (DAILY_LONG + 5) 60
      ∨ intra.length < max (INTRA_SHORT + INTRA_LONG + 5) 50 then
    none
  else if daily.length < 2 ∨ intra.length < 2 then
    none
  else
    let dcloses := daily.map Bar.close
    let icloses := intra.map Bar.close
    let irsi := rsiList icloses RSI_PERIOD
    let m := daily.length
    let n := intra.length
    some
      { d_curr := { maS := maAt DAILY_SHORT dcloses (m - 1),
                    maL := maAt DAILY_LONG dcloses (m - 1) }
        i_prev := { maS := maAt INTRA_SHORT icloses (n - 2),
                    maL := maAt INTRA_LONG icloses (n - 2),
                    close := icloses.getD (n - 2) 0,
                    rsiv := irsi.getD (n - 2) 50 }
        i_curr := { maS := maAt INTRA_SHORT icloses (n - 1),
                    maL := maAt INTRA_LONG icloses (n - 1),
                    close := icloses.getD (n - 1) 0,
                    rsiv := irsi.getD (n - 1) 50 }
        last_ts := ((intra.map Bar.ts).getD (n - 1) 0)
        swingLow := recent_swing_low intra SWING_LOOKBACK
        swingHigh := recent_swing_high intra SWING_LOOKBACK }

/-- `evaluate_ticker` (lines 190-359) for one ticker: returns the updated
state mapping and the alerts sent.  A skip (insufficient data) leaves the
mapping untouched; otherwise line 359 stores the (possibly unchanged)
record under the ticker's key. -/
def evaluate_ticker (ticker : String) (daily intra : List Bar)
    (state : StateMap) : StateMap × List Alert :=
  match computeCtx daily intra with
  | none => (state, [])
  | some c =>
    let st := getStD state ticker initState
    let r := evalCore c st
    (setSt state ticker r.1, r.2)

/-! ### Evaluation driver (lines 365-383) -/

/-- The watchlist loop of `main` (lines 375-379): each ticker is evaluated by
a possibly-failing step `f` (failure stands for the exceptions the `try`
block catches, e.g. the external data source erroring); on failure the
exception is caught and the state is left as it was, and the loop proceeds
with the remaining tickers. -/
def runAll (f : String → StateMap → Except Unit StateMap) :
    List String → StateMap → StateMap
  | [], s => s
  | t :: ts, s =>
    runAll f ts (match f t s with
      | Except.ok s2 => s2
      | Except.error _ => s)

/-! ### Manual reset -/

/-- Modelled from the spec: no manual-reset code exists under `src/`
(`swing_notifier.py` has no such input); spec section 4.3 item 5 and the
"Manual reset input" contract of section 6 describe it: presence of a
ticker in the reset input forces that ticker directly to `FLAT` (the FLAT
shape clears the entry fields), emits a `ManualResetAlert`, and the input
is cleared (consumed exactly once). -/
def manualResetOne (st : TickerState) : TickerState :=
  { st with
    opn := false
    side := none
    entry_price := none
    entry_time := none
    sl := none }

/-- Modelled from the spec: process the whole manual-reset input; returns
the new state mapping, the alerts emitted (one per reset ticker), and the
reset input left after the run (cleared). -/
def manualReset : List String → StateMap → StateMap × List Alert × List String
  | [], s => (s, [], [])
  | x :: xs, s =>
    let s2 := setSt s x (manualResetOne (getStD s x initState))
    let r := manualReset xs s2
    (r.1, Alert.manualReset :: r.2.1, r.2.2)

/-! ### Auxiliary predicates used by the theorems -/

/-- Well-formedness of a stored record: an open position carries its entry
price and stop level (every record the program itself writes satisfies
this; see the reachability invariant). -/
def Wf (st : TickerState) : Prop :=
  st.opn = true → st.entry_price.isSome ∧ st.sl.isSome

instance (st : TickerState) : Decidable (Wf st) := by
  unfold Wf
  infer_instance

/-- Recognizer for entry alerts. -/
def isEntry : Alert → Bool
  | Alert.entry _ => true
  | _ => false

/-- Recognizer for stop-loss alerts. -/
def isSL : Alert → Bool
  | Alert.stopLoss _ => true
  | _ => false

/-- Recognizer for take-profit alerts of a given level. -/
def isTP (lvl : ℕ) : Alert → Bool
  | Alert.takeProfit _ l => decide (l = lvl)
  | _ => false

/-- Recognizer for exit-candidate alerts. -/
def isExit : Alert → Bool
  | Alert.exitCandidate _ => true
  | _ => false

/-- `True` when the bar data produces no entry signal (either an early skip,
or both signal booleans false). -/
def noSignal (daily intra : List Bar) : Bool :=
  match computeCtx daily intra with
  | none => true
  | some c => !(buySignal c || sellSignal c)

/-- Well-formed bar: positive prices, `low ≤ close ≤ high`. -/
def BarWf (b : Bar) : Prop :=
  0 < b.low ∧ b.low ≤ b.close ∧ b.close ≤ b.high

instance (b : Bar) : Decidable (BarWf b) := by
  unfold BarWf
  infer_instance

/-- The states reachable from the initial record by the evaluation step. -/
inductive Reach : TickerState → Prop where
  | init : Reach initState
  | step (c : Ctx) (st : TickerState) : Reach st → Reach (evalCore c st).1

/-! ## Lemmas about the state mapping -/

theorem getSt_setSt_self (m : StateMap) (k : String) (v : TickerState) :
    getSt (setSt m k v) k = some v := by
  induction m with
  | nil => simp [setSt, getSt]
  | cons p r ih =>
    obtain ⟨k0, v0⟩ := p
    by_cases h : k0 = k
    · simp [setSt, h, getSt]
    · simp [setSt, h, getSt, ih]

theorem getSt_setSt_ne (m : StateMap) (k u : String) (v : TickerState)
    (h : k ≠ u) : getSt (setSt m u v) k = getSt m k := by
  induction m with
  | nil => simp [setSt, getSt, Ne.symm h]
  | cons p r ih =>
    obtain ⟨k0, v0⟩ := p
    by_cases hp : k0 = u
    · subst hp
      simp [setSt, getSt, Ne.symm h]
    · simp only [setSt, hp, if_false, getSt]
      by_cases hk : k0 = k <;> simp [hk, ih]

theorem setSt_self (m : StateMap) (k : String) (v : TickerState)
    (h : getSt m k = some v) : setSt m k v = m := by
  induction m with
  | nil => simp [getSt] at h
  | cons p r ih =>
    obtain ⟨k0, v0⟩ := p
    by_cases hp : k0 = k
    · subst hp
      simp only [getSt, if_true] at h
      cases h
      simp [setSt]
    · simp only [getSt, hp, if_false] at h
      simp [setSt, hp, ih h]

/-! ## C7: a failing ticker neither aborts the batch nor loses its state -/

/-- The embedded evaluator only ever writes its own ticker's record (line
359 is the sole mutation), which justifies the locality hypothesis of the
driver theorem below. -/
theorem evaluate_ticker_local (t : String) (daily intra : List Bar)
    (s : StateMap) (k : String) (hk : k ≠ t) :
    getSt (evaluate_ticker t daily intra s).1 k = getSt s k := by
  rcases hc : computeCtx daily intra with _ | c
  · simp [evaluate_ticker, hc]
  · simp [evaluate_ticker, hc, getSt_setSt_ne _ _ _ _ hk]

/-- C7: if evaluating ticker `t` raises (the driver's `try` catches it),
then after the whole watchlist loop `t`'s previously persisted state is
unchanged, and the loop behaves exactly as if the failing ticker were
absent from the watchlist (the remaining tickers still proceed).
`hloc` states what is true of `evaluate_ticker`: evaluating ticker `u`
touches no other ticker's record (line 359 writes only `state[ticker]`). -/
theorem claim_c7 (f : String → StateMap → Except Unit StateMap)
    (ts : List String) (t : String) (s0 : StateMap)
    (hfail : ∀ s, f t s = Except.error ())
    (hloc : ∀ u s s2, f u s = Except.ok s2 → ∀ k, k ≠ u → getSt s2 k = getSt s k) :
    getSt (runAll f ts s0) t = getSt s0 t
      ∧ runAll f ts s0 = runAll f (ts.filter (fun u => decide (u ≠ t))) s0 := by
  induction ts generalizing s0 with
  | nil => exact ⟨rfl, rfl⟩
  | cons u rest ih =>
    by_cases hu : u = t
    · subst hu
      have h1 : runAll f (u :: rest) s0 = runAll f rest s0 := by
        simp [runAll, hfail s0]
      have h2 : (u :: rest).filter (fun v => decide (v ≠ u)) =
          rest.filter (fun v => decide (v ≠ u)) := by
        simp [List.filter_cons]
      rw [h1, h2]
      exact ih s0
    · have hfilter : (u :: rest).filter (fun v => decide (v ≠ t)) =
          u :: rest.filter (fun v => decide (v ≠ t)) := by
        simp [List.filter_cons, hu]
      cases hfu : f u s0 with
      | ok s2 =>
        have h1 : runAll f (u :: rest) s0 = runAll f rest s2 := by
          simp [runAll, hfu]
        have h2 : runAll f (u :: rest.filter (fun v => decide (v ≠ t))) s0 =
            runAll f (rest.filter (fun v => decide (v ≠ t))) s2 := by
          simp [runAll, hfu]
        rw [h1, hfilter, h2]
        have hpre : getSt s2 t = getSt s0 t := hloc u s0 s2 hfu t (Ne.symm hu)
        obtain ⟨ih1, ih2⟩ := ih s2
        exact ⟨ih1.trans hpre, ih2⟩
      | error e =>
        have h1 : runAll f (u :: rest) s0 = runAll f rest s0 := by
          simp [runAll, hfu]
        have h2 : runAll f (u :: rest.filter (fun v => decide (v ≠ t))) s0 =
            runAll f (rest.filter (fun v => decide (v ≠ t))) s0 := by
          simp [runAll, hfu]
        rw [h1, hfilter, h2]
        exact ih s0

/-- A concrete evaluator for the C7 witness: ticker `"A"` always fails,
every other ticker stores the fresh initial record. -/
def witnessEval (u : String) (s : StateMap) : Except Unit StateMap :=
  if u = "A" then Except.error () else Except.ok (setSt s u initState)

/-- Witness for C7 at a concrete watchlist. -/
theorem claim_c7_witness :
    getSt (runAll witnessEval ["A", "B"] []) "A" = getSt ([] : StateMap) "A"
      ∧ runAll witnessEval ["A", "B"] [] =
        runAll witnessEval (["A", "B"].filter (fun u => decide (u ≠ "A"))) [] := by
  refine claim_c7 witnessEval ["A", "B"] "A" [] (fun s => rfl) ?_
  intro u s s2 h k hk
  by_cases hu : u = "A"
  · simp [witnessEval, hu] at h
  · simp only [witnessEval, hu, if_false, Except.ok.injEq] at h
    subst h
    exact getSt_setSt_ne s k u initState hk

/-! ## C9: manual reset (spec-modelled; no such code exists under src/) -/

/-- Helper: the manual-reset pass never un-flattens a record it has made
flat (later resets of other tickers touch other keys only). -/
theorem manualReset_keeps_flat (rs : List String) (s : StateMap) (X : String)
    (h1 : (getStD s X initState).opn = false)
    (h2 : (getStD s X initState).side = none) :
    (getStD (manualReset rs s).1 X initState).opn = false
      ∧ (getStD (manualReset rs s).1 X initState).side = none := by
  induction rs generalizing s with
  | nil => exact ⟨h1, h2⟩
  | cons y ys ih =>
    simp only [manualReset]
    by_cases hy : X = y
    · subst hy
      refine ih _ ?_ ?_ <;>
        simp [getStD, getSt_setSt_self, manualResetOne]
    · refine ih _ ?_ ?_
      · simpa [getStD, getSt_setSt_ne _ _ _ _ hy] using h1
      · simpa [getStD, getSt_setSt_ne _ _ _ _ hy] using h2

/-- Helper: a ticker named in the reset input ends the pass flat. -/
theorem manualReset_forces_flat (rs : List String) (s : StateMap) (X : String)
    (hX : X ∈ rs) :
    (getStD (manualReset rs s).1 X initState).opn = false
      ∧ (getStD (manualReset rs s).1 X initState).side = none := by
  induction rs generalizing s with
  | nil => cases hX
  | cons y ys ih =>
    simp only [manualReset]
    by_cases hmem : X ∈ ys
    · exact ih _ hmem
    · have hy : X = y := by
        rcases List.mem_cons.mp hX with h | h
        · exact h
        · exact absurd h hmem
      subst hy
      refine manualReset_keeps_flat ys _ X ?_ ?_ <;>
        simp [getStD, getSt_setSt_self, manualResetOne]

/-- C9 (spec-modelled): every ticker in the manual-reset input is forced to
FLAT regardless of its prior status, a `ManualResetAlert` is emitted, and
the reset input is cleared by the run. -/
theorem claim_c9 (resets : List String) (s : StateMap) (X : String)
    (hX : X ∈ resets) :
    (getStD (manualReset resets s).1 X initState).opn = false
      ∧ (getStD (manualReset resets s).1 X initState).side = none
      ∧ Alert.manualReset ∈ (manualReset resets s).2.1
      ∧ (manualReset resets s).2.2 = [] := by
  have hclear : ∀ (rs : List String) (s1 : StateMap), (manualReset rs s1).2.2 = [] := by
    intro rs
    induction rs with
    | nil => intro s1; rfl
    | cons y ys ih => intro s1; simp [manualReset, ih]
  have halert : Alert.manualReset ∈ (manualReset resets s).2.1 := by
    cases resets with
    | nil => cases hX
    | cons y ys => simp [manualReset]
  obtain ⟨hflat, hside⟩ := manualReset_forces_flat resets s X hX
  exact ⟨hflat, hside, halert, hclear resets s⟩

/-- Witness for C9: resetting `"X"` while it is in an open long position. -/
theorem claim_c9_witness :
    (getStD (manualReset ["X"]
        [("X", { opn := true, side := some Side.long, entry_price := some 100,
                 entry_time := some 3, sl := some 90, tp1_sent := true,
                 tp2_sent := false, last_signal_time := some 3 })]).1
        "X" initState).opn = false
      ∧ (getStD (manualReset ["X"]
          [("X", { opn := true, side := some Side.long, entry_price := some 100,
                   entry_time := some 3, sl := some 90, tp1_sent := true,
                   tp2_sent := false, last_signal_time := some 3 })]).1
          "X" initState).side = none
      ∧ Alert.manualReset ∈ (manualReset ["X"]
          [("X", { opn := true, side := some Side.long, entry_price := some 100,
                   entry_time := some 3, sl := some 90, tp1_sent := true,
                   tp2_sent := false, last_signal_time := some 3 })]).2.1
      ∧ (manualReset ["X"]
          [("X", { opn := true, side := some Side.long, entry_price := some 100,
                   entry_time := some 3, sl := some 90, tp1_sent := true,
                   tp2_sent := false, last_signal_time := some 3 })]).2.2 = [] :=
  claim_c9 ["X"] _ "X" (List.mem_singleton.mpr rfl)

/-! ## C5: the long entry signal is exactly the four-way conjunction -/

/-- C5: `buy_signal` is true exactly when all four conditions hold: daily
trend filter allows buying (daily short MA strictly above daily long MA),
the intraday MA pair crossed up, the close is above the intraday long MA,
and the RSI reflex condition holds.  (All moving averages must in
particular be defined: a `NaN` comparison is false in pandas.) -/
theorem claim_c5 (c : Ctx) :
    buySignal c = true ↔
      ((∃ a b, c.d_curr.maS = some a ∧ c.d_curr.maL = some b ∧ b < a)
        ∧ (∃ ps pl cs cl, c.i_prev.maS = some ps ∧ c.i_prev.maL = some pl
            ∧ c.i_curr.maS = some cs ∧ c.i_curr.maL = some cl
            ∧ ps ≤ pl ∧ cl < cs)
        ∧ (∃ cl, c.i_curr.maL = some cl ∧ cl < c.i_curr.close)
        ∧ (c.i_prev.rsiv ≤ RSI_BUY_MAX ∧ c.i_prev.rsiv < c.i_curr.rsiv)) := by
  obtain ⟨⟨dS, dL⟩, ⟨pS, pL, pc, pr⟩, ⟨cS, cL, cc, cr⟩, ts, swl, swh⟩ := c
  cases dS <;> cases dL <;> cases pS <;> cases pL <;> cases cS <;> cases cL <;>
    (simp [buySignal, oGt, oLt, oLe, crossed_up]; try tauto)

/-! ## C10: long and short entry signals are mutually exclusive -/

theorem oGt_oLt_false (a b : Option ℚ) (h : oGt a b = true) : oLt a b = false := by
  cases a with
  | none => cases b <;> simp_all [oGt, oLt]
  | some x =>
    cases b with
    | none => simp_all [oGt, oLt]
    | some y =>
      simp_all [oGt, oLt]
      exact le_of_lt h

theorem openStepLong_no_entry (c : Ctx) (sb : Bool) (slv ep : ℚ)
    (st : TickerState) :
    ((openStepLong c sb slv ep st).2.countP isEntry) = 0 := by
  simp only [openStepLong]
  split_ifs <;>
    simp [List.countP_append, List.countP_cons, isEntry]

theorem openStepShort_no_entry (c : Ctx) (sb : Bool) (slv ep : ℚ)
    (st : TickerState) :
    ((openStepShort c sb slv ep st).2.countP isEntry) = 0 := by
  simp only [openStepShort]
  split_ifs <;>
    simp [List.countP_append, List.countP_cons, isEntry]

/-- C10: `buy_signal` and `sell_signal` are never both true in the same
evaluation (the daily trend gates `MA_S > MA_L` and `MA_S < MA_L` are
mutually exclusive), so an evaluation step emits at most one entry alert. -/
theorem claim_c10 (c : Ctx) (st : TickerState) :
    (buySignal c && sellSignal c) = false
      ∧ (evalCore c st).2.countP isEntry ≤ 1 := by
  constructor
  · cases h : oGt c.d_curr.maS c.d_curr.maL with
    | true =>
      have h2 := oGt_oLt_false _ _ h
      have hs : sellSignal c = false := by
        unfold sellSignal
        simp [h2]
      simp [hs]
    | false =>
      have hb : buySignal c = false := by
        unfold buySignal
        simp [h]
      simp [hb]
  · by_cases hopn : st.opn = true
    · rcases hside : st.side with _ | s
      · simp [evalCore, hopn, hside]
      · cases s <;>
          rcases hsl : st.sl with _ | slv <;>
          rcases hep : st.entry_price with _ | ep <;>
          simp [evalCore, hopn, hside, hsl, hep,
            openStepLong_no_entry, openStepShort_no_entry]
    · have hopn2 : st.opn = false := by simpa using hopn
      simp only [evalCore, hopn2, Bool.not_false, if_true]
      split_ifs <;> simp [isEntry]

/-! ## C4: the RSI computation -/

theorem mem_zipWith {α β γ : Type} (f : α → β → γ) :
    ∀ (as : List α) (bs : List β) (c : γ), c ∈ List.zipWith f as bs →
      ∃ a ∈ as, ∃ b ∈ bs, c = f a b := by
  intro as
  induction as with
  | nil => intro bs c h; simp [List.zipWith] at h
  | cons a as ih =>
    intro bs c h
    cases bs with
    | nil => simp [List.zipWith] at h
    | cons b bs =>
      simp only [List.zipWith] at h
      rcases List.mem_cons.mp h with h1 | h1
      · exact ⟨a, List.mem_cons_self a _, b, List.mem_cons_self b _, h1⟩
      · obtain ⟨a2, ha, b2, hb, hc⟩ := ih bs c h1
        exact ⟨a2, List.mem_cons_of_mem _ ha, b2, List.mem_cons_of_mem _ hb, hc⟩

theorem gains_nonneg (xs : List ℚ) : ∀ g ∈ gains xs, 0 ≤ g := by
  cases xs with
  | nil => simp [gains]
  | cons x r =>
    intro g hg
    simp only [gains] at hg
    rcases List.mem_cons.mp hg with h | h
    · simp [h]
    · obtain ⟨a, _, b, _, hc⟩ := mem_zipWith _ _ _ _ h
      subst hc
      split_ifs with hab
      · linarith
      · exact le_refl 0

theorem losses_nonneg (xs : List ℚ) : ∀ g ∈ losses xs, 0 ≤ g := by
  cases xs with
  | nil => simp [losses]
  | cons x r =>
    intro g hg
    simp only [losses] at hg
    rcases List.mem_cons.mp hg with h | h
    · simp [h]
    · obtain ⟨a, _, b, _, hc⟩ := mem_zipWith _ _ _ _ h
      subst hc
      split_ifs with hab
      · linarith
      · exact le_refl 0

theorem ewmAux_nonneg (alpha : ℚ) (h0 : 0 ≤ alpha) (h1 : alpha ≤ 1) :
    ∀ (xs : List ℚ) (y : ℚ), 0 ≤ y → (∀ x ∈ xs, 0 ≤ x) →
      ∀ z ∈ ewmAux alpha y xs, 0 ≤ z := by
  intro xs
  induction xs with
  | nil =>
    intro y hy _ z hz
    simp only [ewmAux, List.mem_singleton] at hz
    exact hz ▸ hy
  | cons x r ih =>
    intro y hy hxs z hz
    simp only [ewmAux] at hz
    rcases List.mem_cons.mp hz with h | h
    · exact h ▸ hy
    · refine ih _ ?_ (fun w hw => hxs w (List.mem_cons_of_mem _ hw)) z h
      have hx : 0 ≤ x := hxs x (List.mem_cons_self x r)
      have : 0 ≤ (1 - alpha) * y := mul_nonneg (by linarith) hy
      have : 0 ≤ alpha * x := mul_nonneg h0 hx
      linarith

theorem ewm_nonneg (alpha : ℚ) (h0 : 0 ≤ alpha) (h1 : alpha ≤ 1)
    (xs : List ℚ) (hxs : ∀ x ∈ xs, 0 ≤ x) : ∀ z ∈ ewm alpha xs, 0 ≤ z := by
  cases xs with
  | nil => simp [ewm]
  | cons x r =>
    exact ewmAux_nonneg alpha h0 h1 r x (hxs x (List.mem_cons_self x r))
      (fun w hw => hxs w (List.mem_cons_of_mem _ hw))

theorem rsiSample_range (g l : ℚ) (hg : 0 ≤ g) (hl : 0 ≤ l) :
    0 ≤ rsiSample g l ∧ rsiSample g l ≤ 100 := by
  unfold rsiSample
  split_ifs with h
  · norm_num
  · have hl2 : 0 < l := lt_of_le_of_ne hl (Ne.symm h)
    have hq : 0 ≤ g / l := div_nonneg hg hl
    have h2 : (0 : ℚ) < 100 / (1 + g / l) := by positivity
    have h3 : (100 : ℚ) / (1 + g / l) ≤ 100 := by
      apply div_le_self (by norm_num)
      linarith
    constructor <;> linarith

theorem gains_length (xs : List ℚ) : (gains xs).length = xs.length := by
  cases xs with
  | nil => rfl
  | cons x r => simp [gains, List.length_zipWith]

theorem losses_length (xs : List ℚ) : (losses xs).length = xs.length := by
  cases xs with
  | nil => rfl
  | cons x r => simp [losses, List.length_zipWith]

theorem ewmAux_length (alpha : ℚ) :
    ∀ (xs : List ℚ) (y : ℚ), (ewmAux alpha y xs).length = xs.length + 1 := by
  intro xs
  induction xs with
  | nil => intro y; rfl
  | cons x r ih => intro y; simp [ewmAux, ih]

theorem ewm_length (alpha : ℚ) (xs : List ℚ) :
    (ewm alpha xs).length = xs.length := by
  cases xs with
  | nil => rfl
  | cons x r => simp [ewm, ewmAux_length]

theorem getD_zipWith {α β γ : Type} (f : α → β → γ) :
    ∀ (as : List α) (bs : List β) (i : ℕ), i < as.length → i < bs.length →
      ∀ (da : α) (db : β) (d : γ),
      (List.zipWith f as bs).getD i d = f (as.getD i da) (bs.getD i db) := by
  intro as
  induction as with
  | nil => intro bs i h1; simp at h1
  | cons a as ih =>
    intro bs i h1 h2 da db d
    cases bs with
    | nil => simp at h2
    | cons b bs =>
      cases i with
      | zero => rfl
      | succ j =>
        simp only [List.zipWith, List.getD_cons_succ]
        exact ih bs j (by simpa using h1) (by simpa using h2) da db d

/-- C4 as amended: every RSI value is in `[0, 100]`, the very first sample is
`50`, and a zero smoothed average loss yields RSI `50` (not `100`: the
division guard replaces a zero loss by `NaN` and the final `fillna` turns
the sample into `50`). -/
theorem claim_c4_amended (xs : List ℚ) (period : ℕ) (hp : 0 < period) :
    (∀ r ∈ rsiList xs period, 0 ≤ r ∧ r ≤ 100)
    ∧ (xs ≠ [] → (rsiList xs period).getD 0 0 = 50)
    ∧ (∀ i, i < xs.length →
        (ewm (1 / (period : ℚ)) (losses xs)).getD i 1 = 0 →
        (rsiList xs period).getD i 0 = 50) := by
  have hcast : (1 : ℚ) ≤ (period : ℚ) := by
    exact_mod_cast hp
  have h0 : 0 ≤ 1 / ((period : ℚ)) := by positivity
  have h1 : 1 / ((period : ℚ)) ≤ 1 := by
    rw [div_le_one (by linarith)]
    exact hcast
  refine ⟨?_, ?_, ?_⟩
  · intro r hr
    obtain ⟨g, hg, l, hl, hc⟩ := mem_zipWith rsiSample _ _ r hr
    subst hc
    exact rsiSample_range g l
      (ewm_nonneg _ h0 h1 _ (gains_nonneg xs) g hg)
      (ewm_nonneg _ h0 h1 _ (losses_nonneg xs) l hl)
  · intro hne
    cases xs with
    | nil => exact absurd rfl hne
    | cons x r =>
      cases r with
      | nil => simp [rsiList, gains, losses, ewm, ewmAux, rsiSample]
      | cons y ys => simp [rsiList, gains, losses, ewm, ewmAux, rsiSample]
  · intro i hi hzero
    have hlen1 : i < (ewm (1 / ((period : ℚ))) (gains xs)).length := by
      rw [ewm_length, gains_length]; exact hi
    have hlen2 : i < (ewm (1 / ((period : ℚ))) (losses xs)).length := by
      rw [ewm_length, losses_length]; exact hi
    rw [rsiList, getD_zipWith rsiSample _ _ i hlen1 hlen2 0 1 0, hzero]
    rfl

/-- C4 counterexample: on the series `[1, 2]` the smoothed average loss at
index 1 is `0` while the smoothed average gain is positive, and the RSI the
code produces there is `50`, not the `100` the claim requires. -/
theorem claim_c4_counterexample :
    (ewm (1 / (RSI_PERIOD : ℚ)) (losses [1, 2])).getD 1 1 = 0
    ∧ 0 < (ewm (1 / (RSI_PERIOD : ℚ)) (gains [1, 2])).getD 1 0
    ∧ (rsiList [1, 2] RSI_PERIOD).getD 1 0 = 50
    ∧ ((50 : ℚ) = 100 → False) :=
  of_decide_eq_true (by with_unfolding_all rfl)

/-- Witness for the amended C4 at a concrete series and the configured
period. -/
theorem claim_c4_witness :
    (∀ r ∈ rsiList [1, 2] RSI_PERIOD, 0 ≤ r ∧ r ≤ 100)
    ∧ (([1, 2] : List ℚ) ≠ [] → (rsiList [1, 2] RSI_PERIOD).getD 0 0 = 50)
    ∧ (∀ i, i < ([1, 2] : List ℚ).length →
        (ewm (1 / (RSI_PERIOD : ℚ)) (losses [1, 2])).getD i 1 = 0 →
        (rsiList [1, 2] RSI_PERIOD).getD i 0 = 50) :=
  claim_c4_amended [1, 2] RSI_PERIOD (by decide)

/-! ## C1: the stop-loss alert characterization -/

/-- Price crossing the stored stop level in the losing direction. -/
def slBreach : Side → ℚ → ℚ → Prop
  | Side.long, price, v => price ≤ v
  | Side.short, price, v => v ≤ price

instance (s : Side) (price v : ℚ) : Decidable (slBreach s price v) := by
  cases s <;> (unfold slBreach; infer_instance)

theorem openStepLong_sl_mem (c : Ctx) (sb : Bool) (slv ep : ℚ)
    (st : TickerState) (s : Side) :
    Alert.stopLoss s ∈ (openStepLong c sb slv ep st).2 ↔
      (s = Side.long ∧ c.i_curr.close ≤ slv) := by
  simp only [openStepLong]
  split_ifs <;> simp_all

theorem openStepShort_sl_mem (c : Ctx) (sb : Bool) (slv ep : ℚ)
    (st : TickerState) (s : Side) :
    Alert.stopLoss s ∈ (openStepShort c sb slv ep st).2 ↔
      (s = Side.short ∧ slv ≤ c.i_curr.close) := by
  simp only [openStepShort]
  split_ifs <;> simp_all

theorem openStepLong_sl_flat (c : Ctx) (sb : Bool) (slv ep : ℚ)
    (st : TickerState) (h : c.i_curr.close ≤ slv) :
    (openStepLong c sb slv ep st).1.opn = false
      ∧ (openStepLong c sb slv ep st).1.side = none := by
  simp only [openStepLong]
  split_ifs <;> simp_all

theorem openStepShort_sl_flat (c : Ctx) (sb : Bool) (slv ep : ℚ)
    (st : TickerState) (h : slv ≤ c.i_curr.close) :
    (openStepShort c sb slv ep st).1.opn = false
      ∧ (openStepShort c sb slv ep st).1.side = none := by
  simp only [openStepShort]
  split_ifs <;> simp_all

/-- C1: for a well-formed record, a stop-loss alert for side `s` is emitted
by the evaluation step exactly when the position is open on side `s` and the
close crosses the stored stop level in the losing direction (`price ≤ sl`
for LONG, `price ≥ sl` for SHORT); whenever one is emitted the record
transitions to FLAT (`open = False`, `side = None`).  In particular no
stop-loss alert is ever emitted from a FLAT record. -/
theorem claim_c1 (c : Ctx) (st : TickerState) (hwf : Wf st) :
    (∀ s : Side, Alert.stopLoss s ∈ (evalCore c st).2 ↔
      (st.opn = true ∧ st.side = some s ∧
        ∃ v, st.sl = some v ∧ slBreach s c.i_curr.close v))
    ∧ ((∃ s : Side, Alert.stopLoss s ∈ (evalCore c st).2) →
        (evalCore c st).1.opn = false ∧ (evalCore c st).1.side = none) := by
  by_cases hopn : st.opn = true
  · obtain ⟨hep, hsl⟩ := hwf hopn
    obtain ⟨ep, hep⟩ := Option.isSome_iff_exists.mp hep
    obtain ⟨slv, hsl⟩ := Option.isSome_iff_exists.mp hsl
    rcases hside : st.side with _ | s0
    · constructor
      · intro s
        simp [evalCore, hopn, hside]
      · intro ⟨s, hs⟩
        simp [evalCore, hopn, hside] at hs
    · cases s0
      · constructor
        · intro s
          rw [show (evalCore c st).2 =
              (openStepLong c (decide (st.last_signal_time = some c.last_ts))
                slv ep st).2 by simp [evalCore, hopn, hside, hsl, hep]]
          rw [openStepLong_sl_mem]
          constructor
          · rintro ⟨rfl, hb⟩
            exact ⟨hopn, rfl, slv, hsl, hb⟩
          · rintro ⟨_, hss, v, hv, hb⟩
            rw [hsl] at hv
            cases hv
            cases hss
            exact ⟨rfl, hb⟩
        · intro ⟨s, hs⟩
          rw [show (evalCore c st).2 =
              (openStepLong c (decide (st.last_signal_time = some c.last_ts))
                slv ep st).2 by simp [evalCore, hopn, hside, hsl, hep]] at hs
          rw [openStepLong_sl_mem] at hs
          rw [show (evalCore c st).1 =
              (openStepLong c (decide (st.last_signal_time = some c.last_ts))
                slv ep st).1 by simp [evalCore, hopn, hside, hsl, hep]]
          exact openStepLong_sl_flat c _ slv ep st hs.2
      · constructor
        · intro s
          rw [show (evalCore c st).2 =
              (openStepShort c (decide (st.last_signal_time = some c.last_ts))
                slv ep st).2 by simp [evalCore, hopn, hside, hsl, hep]]
          rw [openStepShort_sl_mem]
          constructor
          · rintro ⟨rfl, hb⟩
            exact ⟨hopn, rfl, slv, hsl, hb⟩
          · rintro ⟨_, hss, v, hv, hb⟩
            rw [hsl] at hv
            cases hv
            cases hss
            exact ⟨rfl, hb⟩
        · intro ⟨s, hs⟩
          rw [show (evalCore c st).2 =
              (openStepShort c (decide (st.last_signal_time = some c.last_ts))
                slv ep st).2 by simp [evalCore, hopn, hside, hsl, hep]] at hs
          rw [openStepShort_sl_mem] at hs
          rw [show (evalCore c st).1 =
              (openStepShort c (decide (st.last_signal_time = some c.last_ts))
                slv ep st).1 by simp [evalCore, hopn, hside, hsl, hep]]
          exact openStepShort_sl_flat c _ slv ep st hs.2
  · have hopn2 : st.opn = false := by simpa using hopn
    have halerts : ∀ s : Side, Alert.stopLoss s ∉ (evalCore c st).2 := by
      intro s
      simp only [evalCore, hopn2, Bool.not_false, if_true]
      split_ifs <;> simp
    constructor
    · intro s
      simp [halerts s, hopn2]
    · intro ⟨s, hs⟩
      exact absurd hs (halerts s)

/-- A concrete context for the C1 witness: an open long whose stop level is
crossed. -/
def ctxC1 : Ctx :=
  { d_curr := { maS := some 1, maL := some 2 }
    i_prev := { maS := some 1, maL := some 2, close := 95, rsiv := 50 }
    i_curr := { maS := some 1, maL := some 2, close := 95, rsiv := 50 }
    last_ts := 7
    swingLow := 90
    swingHigh := 100 }

/-- A concrete open-long record for the C1 witness. -/
def stC1 : TickerState :=
  { opn := true, side := some Side.long, entry_price := some 120,
    entry_time := some 0, sl := some 110, tp1_sent := false,
    tp2_sent := false, last_signal_time := none }

/-- Witness for C1 at a concrete breached open-long record. -/
theorem claim_c1_witness :
    Wf stC1
    ∧ ((∀ s : Side, Alert.stopLoss s ∈ (evalCore ctxC1 stC1).2 ↔
        (stC1.opn = true ∧ stC1.side = some s ∧
          ∃ v, stC1.sl = some v ∧ slBreach s ctxC1.i_curr.close v))
      ∧ ((∃ s : Side, Alert.stopLoss s ∈ (evalCore ctxC1 stC1).2) →
          (evalCore ctxC1 stC1).1.opn = false
            ∧ (evalCore ctxC1 stC1).1.side = none)) :=
  ⟨by decide, claim_c1 ctxC1 stC1 (by decide)⟩

/-! ## C3: state-shape invariants of reachable records -/

theorem openStepLong_fields (c : Ctx) (sb : Bool) (slv ep : ℚ)
    (st : TickerState) :
    (openStepLong c sb slv ep st).1.entry_price = st.entry_price
      ∧ (openStepLong c sb slv ep st).1.sl = st.sl
      ∧ (openStepLong c sb slv ep st).1.entry_time = st.entry_time := by
  simp only [openStepLong]
  split_ifs <;> simp

theorem openStepShort_fields (c : Ctx) (sb : Bool) (slv ep : ℚ)
    (st : TickerState) :
    (openStepShort c sb slv ep st).1.entry_price = st.entry_price
      ∧ (openStepShort c sb slv ep st).1.sl = st.sl
      ∧ (openStepShort c sb slv ep st).1.entry_time = st.entry_time := by
  simp only [openStepShort]
  split_ifs <;> simp

/-- One evaluation step preserves "open implies entry fields set". -/
theorem evalCore_preserves_fields (c : Ctx) (st : TickerState)
    (h : st.opn = true → st.entry_price.isSome = true ∧ st.sl.isSome = true) :
    (evalCore c st).1.opn = true →
      (evalCore c st).1.entry_price.isSome = true
        ∧ (evalCore c st).1.sl.isSome = true := by
  by_cases hopn : st.opn = true
  · obtain ⟨hep, hsl⟩ := h hopn
    obtain ⟨ep, hep2⟩ := Option.isSome_iff_exists.mp hep
    obtain ⟨slv, hsl2⟩ := Option.isSome_iff_exists.mp hsl
    rcases hside : st.side with _ | s
    · intro _
      simp only [evalCore, hopn, hside]
      simp [hep2, hsl2]
    · cases s
      · have he : (evalCore c st).1 =
            (openStepLong c (decide (st.last_signal_time = some c.last_ts))
              slv ep st).1 := by
          simp [evalCore, hopn, hside, hsl2, hep2]
        intro _
        obtain ⟨f1, f2, _⟩ := openStepLong_fields c
          (decide (st.last_signal_time = some c.last_ts)) slv ep st
        rw [he, f1, f2, hep2, hsl2]
        exact ⟨rfl, rfl⟩
      · have he : (evalCore c st).1 =
            (openStepShort c (decide (st.last_signal_time = some c.last_ts))
              slv ep st).1 := by
          simp [evalCore, hopn, hside, hsl2, hep2]
        intro _
        obtain ⟨f1, f2, _⟩ := openStepShort_fields c
          (decide (st.last_signal_time = some c.last_ts)) slv ep st
        rw [he, f1, f2, hep2, hsl2]
        exact ⟨rfl, rfl⟩
  · have hopn2 : st.opn = false := by simpa using hopn
    simp only [evalCore, hopn2, Bool.not_false, if_true]
    split_ifs with h1 h2
    · intro _
      simp [entryStateLong]
    · intro _
      simp [entryStateShort]
    · intro ho
      exact h ho

/-- C3 as amended: in every state reachable by the evaluation step, an open
(LONG or SHORT) position carries its entry price and stop level.  The FLAT
half of the original claim is false: a stop-loss transition clears only
`open` and `side` (line 307/336) and leaves `entry_price`, `sl` and
`entry_time` set to their stale values; only the never-yet-opened initial
record has them unset. -/
theorem claim_c3_amended (st : TickerState) (h : Reach st) :
    st.opn = true →
      st.entry_price.isSome = true ∧ st.sl.isSome = true := by
  induction h with
  | init =>
    intro ho
    simp [initState] at ho
  | step c st0 h0 ih =>
    exact evalCore_preserves_fields c st0 ih

/-- A context on which the initial record enters a long position. -/
def ctxEntryC3 : Ctx :=
  { d_curr := { maS := some 2, maL := some 1 }
    i_prev := { maS := some 1, maL := some 2, close := 100, rsiv := 30 }
    i_curr := { maS := some 3, maL := some 2, close := 100, rsiv := 35 }
    last_ts := 5
    swingLow := 90
    swingHigh := 110 }

/-- A later context on which that long position breaches its stop level
(and no entry signal is present). -/
def ctxSLC3 : Ctx :=
  { d_curr := { maS := some 1, maL := some 1 }
    i_prev := { maS := some 1, maL := some 1, close := 50, rsiv := 50 }
    i_curr := { maS := some 1, maL := some 1, close := 50, rsiv := 50 }
    last_ts := 6
    swingLow := 40
    swingHigh := 60 }

/-- C3 counterexample: the state reached by entering long and then taking
the stop-loss transition is FLAT (`open = False`) yet still has
`entry_price`, `sl` and `entry_time` set — the claimed invariant
"FLAT implies entryPrice, stopLoss, entryTime unset" fails on a reachable
state. -/
theorem claim_c3_counterexample :
    Reach (evalCore ctxSLC3 (evalCore ctxEntryC3 initState).1).1
    ∧ ((evalCore ctxSLC3 (evalCore ctxEntryC3 initState).1).1.opn = false
      ∧ (evalCore ctxSLC3 (evalCore ctxEntryC3 initState).1).1.entry_price.isSome = true
      ∧ (evalCore ctxSLC3 (evalCore ctxEntryC3 initState).1).1.sl.isSome = true
      ∧ (evalCore ctxSLC3 (evalCore ctxEntryC3 initState).1).1.entry_time.isSome = true) :=
  ⟨Reach.step _ _ (Reach.step _ _ Reach.init),
    of_decide_eq_true (by with_unfolding_all rfl)⟩

/-- Witness for the amended C3 at the concrete reachable open state. -/
theorem claim_c3_witness :
    (evalCore ctxEntryC3 initState).1.entry_price.isSome = true
      ∧ (evalCore ctxEntryC3 initState).1.sl.isSome = true :=
  claim_c3_amended _ (Reach.step _ _ Reach.init)
    (of_decide_eq_true (by with_unfolding_all rfl))

/-! ## C6: take-profit flags are monotonic, alerts at most once per position -/

/-- A sequence of evaluation runs against one ticker's record (each element
is the indicator context of one driver invocation). -/
def runSeq : List Ctx → TickerState → TickerState × List Alert
  | [], st => (st, [])
  | c :: cs, st =>
    let r := evalCore c st
    let r2 := runSeq cs r.1
    (r2.1, r.2 ++ r2.2)

theorem openStepLong_tp (c : Ctx) (sb : Bool) (slv ep : ℚ) (st : TickerState) :
    (st.tp1_sent.toNat + (openStepLong c sb slv ep st).2.countP (isTP 1)
      ≤ (openStepLong c sb slv ep st).1.tp1_sent.toNat)
    ∧ (st.tp2_sent.toNat + (openStepLong c sb slv ep st).2.countP (isTP 2)
      ≤ (openStepLong c sb slv ep st).1.tp2_sent.toNat) := by
  simp only [openStepLong]
  split_ifs <;>
    simp_all [List.countP_append, List.countP_cons, isTP]

theorem openStepShort_tp (c : Ctx) (sb : Bool) (slv ep : ℚ) (st : TickerState) :
    (st.tp1_sent.toNat + (openStepShort c sb slv ep st).2.countP (isTP 1)
      ≤ (openStepShort c sb slv ep st).1.tp1_sent.toNat)
    ∧ (st.tp2_sent.toNat + (openStepShort c sb slv ep st).2.countP (isTP 2)
      ≤ (openStepShort c sb slv ep st).1.tp2_sent.toNat) := by
  simp only [openStepShort]
  split_ifs <;>
    simp_all [List.countP_append, List.countP_cons, isTP]

/-- Potential inequality for one step: absent an entry (which is the only
reset), the take-profit counter plus the incoming flag is bounded by the
outgoing flag. -/
theorem evalCore_tp_step (c : Ctx) (st : TickerState)
    (hne : (evalCore c st).2.countP isEntry = 0) :
    (st.tp1_sent.toNat + (evalCore c st).2.countP (isTP 1)
      ≤ (evalCore c st).1.tp1_sent.toNat)
    ∧ (st.tp2_sent.toNat + (evalCore c st).2.countP (isTP 2)
      ≤ (evalCore c st).1.tp2_sent.toNat) := by
  by_cases hopn : st.opn = true
  · rcases hside : st.side with _ | s
    · simp [evalCore, hopn, hside]
    · cases s
      · rcases hsl : st.sl with _ | slv
        · simp [evalCore, hopn, hside, hsl]
        · rcases hep : st.entry_price with _ | ep
          · simp [evalCore, hopn, hside, hsl, hep]
          · have he : evalCore c st =
                openStepLong c (decide (st.last_signal_time = some c.last_ts))
                  slv ep st := by
              simp [evalCore, hopn, hside, hsl, hep]
            rw [he]
            exact openStepLong_tp c _ slv ep st
      · rcases hsl : st.sl with _ | slv
        · simp [evalCore, hopn, hside, hsl]
        · rcases hep : st.entry_price with _ | ep
          · simp [evalCore, hopn, hside, hsl, hep]
          · have he : evalCore c st =
                openStepShort c (decide (st.last_signal_time = some c.last_ts))
                  slv ep st := by
              simp [evalCore, hopn, hside, hsl, hep]
            rw [he]
            exact openStepShort_tp c _ slv ep st
  · have hopn2 : st.opn = false := by simpa using hopn
    by_cases h1 : (buySignal c
        && !(decide (st.last_signal_time = some c.last_ts))) = true
    · exfalso
      simp [evalCore, hopn2, h1, isEntry] at hne
    · by_cases h2 : (sellSignal c
          && !(decide (st.last_signal_time = some c.last_ts))) = true
      · exfalso
        simp [evalCore, hopn2, h1, h2, isEntry] at hne
      · simp [evalCore, hopn2, h1, h2]

/-- The potential inequality over a whole sequence of runs. -/
theorem runSeq_tp (cs : List Ctx) (st : TickerState)
    (hne : (runSeq cs st).2.countP isEntry = 0) :
    (st.tp1_sent.toNat + (runSeq cs st).2.countP (isTP 1)
      ≤ (runSeq cs st).1.tp1_sent.toNat)
    ∧ (st.tp2_sent.toNat + (runSeq cs st).2.countP (isTP 2)
      ≤ (runSeq cs st).1.tp2_sent.toNat) := by
  induction cs generalizing st with
  | nil => simp [runSeq]
  | cons c cs ih =>
    simp only [runSeq, List.countP_append] at hne ⊢
    have hne1 : (evalCore c st).2.countP isEntry = 0 := by omega
    have hne2 : (runSeq cs (evalCore c st).1).2.countP isEntry = 0 := by omega
    obtain ⟨s1, s2⟩ := evalCore_tp_step c st hne1
    obtain ⟨i1, i2⟩ := ih (evalCore c st).1 hne2
    constructor <;> omega

/-- C6: across any number of evaluation runs in which no entry alert is
emitted (i.e. within one open position — a fresh entry is the only reset),
the `tp1_sent`/`tp2_sent` flags are monotonic (once true they stay true) and
at most one take-profit-1 alert and at most one take-profit-2 alert are
emitted in total. -/
theorem claim_c6 (cs : List Ctx) (st : TickerState)
    (hne : (runSeq cs st).2.countP isEntry = 0) :
    (st.tp1_sent = true → (runSeq cs st).1.tp1_sent = true)
    ∧ (st.tp2_sent = true → (runSeq cs st).1.tp2_sent = true)
    ∧ (runSeq cs st).2.countP (isTP 1) ≤ 1
    ∧ (runSeq cs st).2.countP (isTP 2) ≤ 1 := by
  obtain ⟨h1, h2⟩ := runSeq_tp cs st hne
  have b1 : (runSeq cs st).1.tp1_sent.toNat ≤ 1 := by
    cases (runSeq cs st).1.tp1_sent <;> simp
  have b2 : (runSeq cs st).1.tp2_sent.toNat ≤ 1 := by
    cases (runSeq cs st).1.tp2_sent <;> simp
  refine ⟨?_, ?_, by omega, by omega⟩
  · intro ht
    rw [ht] at h1
    simp only [Bool.toNat_true] at h1
    cases hf : (runSeq cs st).1.tp1_sent
    · rw [hf] at h1
      simp at h1
    · rfl
  · intro ht
    rw [ht] at h2
    simp only [Bool.toNat_true] at h2
    cases hf : (runSeq cs st).1.tp2_sent
    · rw [hf] at h2
      simp at h2
    · rfl

/-- Witness for C6: two consecutive runs of an open long position on a bar
that breaches nothing and signals nothing. -/
theorem claim_c6_witness :
    (stC1.tp1_sent = true → (runSeq [ctxSLC3, ctxSLC3] stC1).1.tp1_sent = true)
    ∧ (stC1.tp2_sent = true → (runSeq [ctxSLC3, ctxSLC3] stC1).1.tp2_sent = true)
    ∧ (runSeq [ctxSLC3, ctxSLC3] stC1).2.countP (isTP 1) ≤ 1
    ∧ (runSeq [ctxSLC3, ctxSLC3] stC1).2.countP (isTP 2) ≤ 1 :=
  claim_c6 [ctxSLC3, ctxSLC3] stC1 (of_decide_eq_true (by with_unfolding_all rfl))

/-! ## C8: no mutation without a trigger (frame effect) -/

/-- Degenerate well-formed bar with all prices equal. -/
def mkBar (t : ℕ) (p : ℚ) : Bar := { ts := t, high := p, low := p, close := p }

/-- Sixty identical daily bars: enough history, no trend, no signal. -/
def dailyK : List Bar := (List.range 60).map (fun i => mkBar i 100)

/-- Fifty identical intraday bars: enough history, no cross, RSI pinned. -/
def intraK : List Bar := (List.range 50).map (fun i => mkBar i 100)

/-- C8 as amended: for a ticker that HAS a stored record, status FLAT and no
entry signal leave the state mapping untouched.  (The "no stored record"
half of the original claim is false: line 359 stores the freshly created
default record, so the mapping gains a key.) -/
theorem claim_c8_amended (t : String) (daily intra : List Bar) (s0 : StateMap)
    (st0 : TickerState) (hrec : getSt s0 t = some st0)
    (hflat : st0.opn = false) (hsig : noSignal daily intra = true) :
    (evaluate_ticker t daily intra s0).1 = s0 := by
  rcases hc : computeCtx daily intra with _ | c
  · simp [evaluate_ticker, hc]
  · have hbs : buySignal c = false ∧ sellSignal c = false := by
      unfold noSignal at hsig
      rw [hc] at hsig
      simpa using hsig
    have hst : getStD s0 t initState = st0 := by
      simp [getStD, hrec]
    have hcore : evalCore c st0 = (st0, []) := by
      simp [evalCore, hflat, hbs.1, hbs.2]
    simp [evaluate_ticker, hc, hst, hcore, setSt_self s0 t st0 hrec]

/-- C8 counterexample: a ticker with NO stored record, FLAT by default and
with no entry signal, still mutates the persisted mapping — the evaluation
step inserts the default record under the ticker's key (line 359). -/
theorem claim_c8_counterexample :
    getSt ([] : StateMap) "X" = none
    ∧ noSignal dailyK intraK = true
    ∧ (evaluate_ticker "X" dailyK intraK []).1 = [("X", initState)]
    ∧ ((evaluate_ticker "X" dailyK intraK []).1 = ([] : StateMap) → False) :=
  of_decide_eq_true (by with_unfolding_all rfl)

/-- Witness for the amended C8: a stored FLAT record on signal-free bars is
left exactly as it was. -/
theorem claim_c8_witness :
    (evaluate_ticker "X" dailyK intraK [("X", initState)]).1 =
      [("X", initState)] :=
  claim_c8_amended "X" dailyK intraK [("X", initState)] initState
    (of_decide_eq_true (by with_unfolding_all rfl))
    rfl
    (of_decide_eq_true (by with_unfolding_all rfl))

/-! ## C2: idempotence of re-evaluation — auxiliary order facts -/

theorem foldl_min_le_init : ∀ (r : List ℚ) (a : ℚ), r.foldl min a ≤ a := by
  intro r
  induction r with
  | nil => intro a; exact le_refl a
  | cons y r ih =>
    intro a
    exact le_trans (ih (min a y)) (min_le_left a y)

theorem foldl_min_le_mem : ∀ (r : List ℚ) (a x : ℚ), x ∈ r → r.foldl min a ≤ x := by
  intro r
  induction r with
  | nil => intro a x hx; cases hx
  | cons y r ih =>
    intro a x hx
    rcases List.mem_cons.mp hx with h | h
    · subst h
      exact le_trans (foldl_min_le_init r (min a x)) (min_le_right a x)
    · exact ih (min a y) x h

theorem listMin_le (xs : List ℚ) (x : ℚ) (h : x ∈ xs) : listMin xs ≤ x := by
  cases xs with
  | nil => cases h
  | cons y r =>
    rcases List.mem_cons.mp h with h2 | h2
    · subst h2
      exact foldl_min_le_init r x
    · exact foldl_min_le_mem r y x h2

theorem foldl_min_mem : ∀ (r : List ℚ) (a : ℚ), r.foldl min a = a ∨ r.foldl min a ∈ r := by
  intro r
  induction r with
  | nil => intro a; exact Or.inl rfl
  | cons y r ih =>
    intro a
    rcases ih (min a y) with h | h
    · rcases min_choice a y with h2 | h2
      · exact Or.inl (by rw [List.foldl_cons, h, h2])
      · refine Or.inr (List.mem_cons.mpr (Or.inl ?_))
        rw [List.foldl_cons, h, h2]
    · exact Or.inr (List.mem_cons.mpr (Or.inr (by rw [List.foldl_cons]; exact h)))

theorem listMin_mem (xs : List ℚ) (h : xs ≠ []) : listMin xs ∈ xs := by
  cases xs with
  | nil => exact absurd rfl h
  | cons y r =>
    rcases foldl_min_mem r y with h2 | h2
    · exact List.mem_cons.mpr (Or.inl (by simpa [listMin] using h2))
    · exact List.mem_cons.mpr (Or.inr (by simpa [listMin] using h2))

theorem foldl_max_ge_init : ∀ (r : List ℚ) (a : ℚ), a ≤ r.foldl max a := by
  intro r
  induction r with
  | nil => intro a; exact le_refl a
  | cons y r ih =>
    intro a
    exact le_trans (le_max_left a y) (ih (max a y))

theorem foldl_max_ge_mem : ∀ (r : List ℚ) (a x : ℚ), x ∈ r → x ≤ r.foldl max a := by
  intro r
  induction r with
  | nil => intro a x hx; cases hx
  | cons y r ih =>
    intro a x hx
    rcases List.mem_cons.mp hx with h | h
    · subst h
      exact le_trans (le_max_right a x) (foldl_max_ge_init r (max a x))
    · exact ih (max a y) x h

theorem listMax_ge (xs : List ℚ) (x : ℚ) (h : x ∈ xs) : x ≤ listMax xs := by
  cases xs with
  | nil => cases h
  | cons y r =>
    rcases List.mem_cons.mp h with h2 | h2
    · subst h2
      exact foldl_max_ge_init r x
    · exact foldl_max_ge_mem r y x h2

/-- The geometric facts about a successfully computed context over
well-formed bars that the idempotence proof needs: the close is positive,
the buffered swing low sits strictly below the close, and the buffered
swing high sits strictly above it. -/
theorem computeCtx_facts (daily intra : List Bar) (c : Ctx)
    (hc : computeCtx daily intra = some c)
    (hwfb : ∀ b ∈ intra, BarWf b) :
    0 < c.i_curr.close
    ∧ c.swingLow * (1 - SL_BUFFER) < c.i_curr.close
    ∧ c.i_curr.close < c.swingHigh * (1 + SL_BUFFER) := by
  unfold computeCtx at hc
  by_cases hg1 : daily.length < max (DAILY_LONG + 5) 60
      ∨ intra.length < max (INTRA_SHORT + INTRA_LONG + 5) 50
  · rw [if_pos hg1] at hc
    cases hc
  · rw [if_neg hg1] at hc
    by_cases hg2 : daily.length < 2 ∨ intra.length < 2
    · rw [if_pos hg2] at hc
      cases hc
    · rw [if_neg hg2] at hc
      have hlen : 50 ≤ intra.length := by
        have := (not_or.mp hg1).2
        have h50 : (50 : ℕ) ≤ max (INTRA_SHORT + INTRA_LONG + 5) 50 :=
          le_max_right _ _
        omega
      simp only [Option.some.injEq] at hc
      subst hc
      simp only
      set n := intra.length with hn
      have hn1 : n - 1 < n := by omega
      obtain ⟨lb, hlb⟩ : ∃ b, intra[n - 1]? = some b := by
        rw [List.getElem?_eq_getElem (by omega)]
        exact ⟨_, rfl⟩
      have hlbmem : lb ∈ intra := List.getElem?_mem hlb
      obtain ⟨hlow_pos, hlc, hch⟩ := hwfb lb hlbmem
      have hclose : (intra.map Bar.close).getD (n - 1) 0 = lb.close := by
        rw [List.getD_eq_getElem?_getD, List.getElem?_map, hlb]
        rfl
      have hidx : (n - SWING_LOOKBACK) + (SWING_LOOKBACK - 1) = n - 1 := by
        have : (SWING_LOOKBACK : ℕ) = 20 := rfl
        omega
      have hlook : SWING_LOOKBACK ≤ n := by
        have : (SWING_LOOKBACK : ℕ) = 20 := rfl
        omega
      have hlow_mem : lb.low ∈ (intra.map Bar.low).drop (n - SWING_LOOKBACK) := by
        have hX : ((intra.map Bar.low).drop (n - SWING_LOOKBACK))[SWING_LOOKBACK - 1]?
            = some lb.low := by
          rw [List.getElem?_drop, hidx, List.getElem?_map, hlb]
          rfl
        exact List.getElem?_mem hX
      have hhigh_mem : lb.high ∈ (intra.map Bar.high).drop (n - SWING_LOOKBACK) := by
        have hX : ((intra.map Bar.high).drop (n - SWING_LOOKBACK))[SWING_LOOKBACK - 1]?
            = some lb.high := by
          rw [List.getElem?_drop, hidx, List.getElem?_map, hlb]
          rfl
        exact List.getElem?_mem hX
      have hswl : recent_swing_low intra SWING_LOOKBACK =
          listMin ((intra.map Bar.low).drop (n - SWING_LOOKBACK)) := by
        unfold recent_swing_low
        rw [if_pos hlook]
      have hswh : recent_swing_high intra SWING_LOOKBACK =
          listMax ((intra.map Bar.high).drop (n - SWING_LOOKBACK)) := by
        unfold recent_swing_high
        rw [if_pos hlook]
      have hsl_le : recent_swing_low intra SWING_LOOKBACK ≤ lb.low := by
        rw [hswl]
        exact listMin_le _ _ hlow_mem
      have hsh_ge : lb.high ≤ recent_swing_high intra SWING_LOOKBACK := by
        rw [hswh]
        exact listMax_ge _ _ hhigh_mem
      have hsl_pos : 0 < recent_swing_low intra SWING_LOOKBACK := by
        rw [hswl]
        have hne : (intra.map Bar.low).drop (n - SWING_LOOKBACK) ≠ [] := by
          apply List.ne_nil_of_length_pos
          rw [List.length_drop, List.length_map]
          omega
        have hmem := listMin_mem _ hne
        have hmem2 : listMin ((intra.map Bar.low).drop (n - SWING_LOOKBACK))
            ∈ intra.map Bar.low := List.drop_subset _ _ hmem
        obtain ⟨b, hb, hbe⟩ := List.mem_map.mp hmem2
        rw [← hbe]
        exact (hwfb b hb).1
      have hclose_pos : 0 < lb.close := lt_of_lt_of_le hlow_pos hlc
      rw [hclose]
      refine ⟨hclose_pos, ?_, ?_⟩
      · have : recent_swing_low intra SWING_LOOKBACK ≤ lb.close :=
          le_trans hsl_le hlc
        simp only [SL_BUFFER]
        linarith
      · have hgh : lb.close ≤ recent_swing_high intra SWING_LOOKBACK :=
          le_trans hch hsh_ge
        have : 0 < recent_swing_high intra SWING_LOOKBACK :=
          lt_of_lt_of_le hclose_pos hgh
        simp only [SL_BUFFER]
        linarith

/-! ### Behaviour of the open-position step needed for idempotence -/

theorem openStepLong_noSL_state (c : Ctx) (sb : Bool) (slv ep : ℚ)
    (st : TickerState) (h : ¬(c.i_curr.close ≤ slv)) :
    (openStepLong c sb slv ep st).1.opn = st.opn
      ∧ (openStepLong c sb slv ep st).1.side = st.side := by
  simp only [openStepLong, eq_false h, if_false]
  split_ifs <;> simp_all

theorem openStepShort_noSL_state (c : Ctx) (sb : Bool) (slv ep : ℚ)
    (st : TickerState) (h : ¬(slv ≤ c.i_curr.close)) :
    (openStepShort c sb slv ep st).1.opn = st.opn
      ∧ (openStepShort c sb slv ep st).1.side = st.side := by
  simp only [openStepShort, eq_false h, if_false]
  split_ifs <;> simp_all

theorem openStepLong_tp1_after (c : Ctx) (sb : Bool) (slv ep : ℚ)
    (st : TickerState) (h : ep * (1 + TP1) ≤ c.i_curr.close) :
    (openStepLong c sb slv ep st).1.tp1_sent = true := by
  simp only [openStepLong]
  split_ifs <;> simp_all

theorem openStepLong_tp2_after (c : Ctx) (sb : Bool) (slv ep : ℚ)
    (st : TickerState) (h : ep * (1 + TP2) ≤ c.i_curr.close) :
    (openStepLong c sb slv ep st).1.tp2_sent = true := by
  simp only [openStepLong]
  split_ifs <;> simp_all

theorem openStepShort_tp1_after (c : Ctx) (sb : Bool) (slv ep : ℚ)
    (st : TickerState) (h : c.i_curr.close ≤ ep * (1 - TP1)) :
    (openStepShort c sb slv ep st).1.tp1_sent = true := by
  simp only [openStepShort]
  split_ifs <;> simp_all

theorem openStepShort_tp2_after (c : Ctx) (sb : Bool) (slv ep : ℚ)
    (st : TickerState) (h : c.i_curr.close ≤ ep * (1 - TP2)) :
    (openStepShort c sb slv ep st).1.tp2_sent = true := by
  simp only [openStepShort]
  split_ifs <;> simp_all

theorem openStepLong_lst (c : Ctx) (sb : Bool) (slv ep : ℚ)
    (st : TickerState) :
    (openStepLong c sb slv ep st).1.last_signal_time = st.last_signal_time
      ∨ (openStepLong c sb slv ep st).1.last_signal_time = some c.last_ts := by
  simp only [openStepLong]
  split_ifs <;> simp

theorem openStepShort_lst (c : Ctx) (sb : Bool) (slv ep : ℚ)
    (st : TickerState) :
    (openStepShort c sb slv ep st).1.last_signal_time = st.last_signal_time
      ∨ (openStepShort c sb slv ep st).1.last_signal_time = some c.last_ts := by
  simp only [openStepShort]
  split_ifs <;> simp

theorem openStepLong_lst_set (c : Ctx) (sb : Bool) (slv ep : ℚ)
    (st : TickerState)
    (h : (crossed_down c.i_prev.maS c.i_prev.maL c.i_curr.maS c.i_curr.maL
        && !sb) = true) :
    (openStepLong c sb slv ep st).1.last_signal_time = some c.last_ts := by
  simp only [openStepLong]
  split_ifs <;> simp_all

theorem openStepShort_lst_set (c : Ctx) (sb : Bool) (slv ep : ℚ)
    (st : TickerState)
    (h : (crossed_up c.i_prev.maS c.i_prev.maL c.i_curr.maS c.i_curr.maL
        && !sb) = true) :
    (openStepShort c sb slv ep st).1.last_signal_time = some c.last_ts := by
  simp only [openStepShort]
  split_ifs <;> simp_all

/-- The open-long step does nothing when none of its four guards holds. -/
theorem evalCore_openLong_noop (c : Ctx) (st2 : TickerState) (slv ep : ℚ)
    (hopn : st2.opn = true) (hside : st2.side = some Side.long)
    (hsl : st2.sl = some slv) (hep : st2.entry_price = some ep)
    (hnoSL : ¬(c.i_curr.close ≤ slv))
    (htp1 : (!st2.tp1_sent && decide (ep * (1 + TP1) ≤ c.i_curr.close)) = false)
    (htp2 : (!st2.tp2_sent && decide (ep * (1 + TP2) ≤ c.i_curr.close)) = false)
    (hexit : (crossed_down c.i_prev.maS c.i_prev.maL c.i_curr.maS c.i_curr.maL
        && !(decide (st2.last_signal_time = some c.last_ts))) = false) :
    evalCore c st2 = (st2, []) := by
  have he : evalCore c st2 =
      openStepLong c (decide (st2.last_signal_time = some c.last_ts))
        slv ep st2 := by
    simp [evalCore, hopn, hside, hsl, hep]
  rw [he]
  simp only [openStepLong, eq_false hnoSL, if_false]
  simp [htp1, htp2, hexit]

/-- The open-short step does nothing when none of its four guards holds. -/
theorem evalCore_openShort_noop (c : Ctx) (st2 : TickerState) (slv ep : ℚ)
    (hopn : st2.opn = true) (hside : st2.side = some Side.short)
    (hsl : st2.sl = some slv) (hep : st2.entry_price = some ep)
    (hnoSL : ¬(slv ≤ c.i_curr.close))
    (htp1 : (!st2.tp1_sent && decide (c.i_curr.close ≤ ep * (1 - TP1))) = false)
    (htp2 : (!st2.tp2_sent && decide (c.i_curr.close ≤ ep * (1 - TP2))) = false)
    (hexit : (crossed_up c.i_prev.maS c.i_prev.maL c.i_curr.maS c.i_curr.maL
        && !(decide (st2.last_signal_time = some c.last_ts))) = false) :
    evalCore c st2 = (st2, []) := by
  have he : evalCore c st2 =
      openStepShort c (decide (st2.last_signal_time = some c.last_ts))
        slv ep st2 := by
    simp [evalCore, hopn, hside, hsl, hep]
  rw [he]
  simp only [openStepShort, eq_false hnoSL, if_false]
  simp [htp1, htp2, hexit]

/-- Re-evaluating the state written by a long entry does nothing: the
freshly set stop sits below the close, the take-profit thresholds sit above
it, and the same-bar guard suppresses the exit-candidate check. -/
theorem evalCore_entryLong_noop (c : Ctx)
    (hpos : 0 < c.i_curr.close)
    (hsl : c.swingLow * (1 - SL_BUFFER) < c.i_curr.close) :
    evalCore c (entryStateLong c) = (entryStateLong c, []) := by
  apply evalCore_openLong_noop c (entryStateLong c)
      (c.swingLow * (1 - SL_BUFFER)) c.i_curr.close rfl rfl rfl rfl
  · exact not_le.mpr hsl
  · have h1 : ¬(c.i_curr.close * (1 + TP1) ≤ c.i_curr.close) := by
      simp only [TP1]
      intro hcon
      nlinarith
    simp [entryStateLong, h1]
  · have h2 : ¬(c.i_curr.close * (1 + TP2) ≤ c.i_curr.close) := by
      simp only [TP2]
      intro hcon
      nlinarith
    simp [entryStateLong, h2]
  · simp [entryStateLong]

/-- Re-evaluating the state written by a short entry does nothing. -/
theorem evalCore_entryShort_noop (c : Ctx)
    (hpos : 0 < c.i_curr.close)
    (hsh : c.i_curr.close < c.swingHigh * (1 + SL_BUFFER)) :
    evalCore c (entryStateShort c) = (entryStateShort c, []) := by
  apply evalCore_openShort_noop c (entryStateShort c)
      (c.swingHigh * (1 + SL_BUFFER)) c.i_curr.close rfl rfl rfl rfl
  · exact not_le.mpr hsh
  · have h1 : ¬(c.i_curr.close ≤ c.i_curr.close * (1 - TP1)) := by
      simp only [TP1]
      intro hcon
      nlinarith
    simp [entryStateShort, h1]
  · have h2 : ¬(c.i_curr.close ≤ c.i_curr.close * (1 - TP2)) := by
      simp only [TP2]
      intro hcon
      nlinarith
    simp [entryStateShort, h2]
  · simp [entryStateShort]

/-- Re-evaluating the result of an open-long step that did not breach the
stop does nothing. -/
theorem openStepLong_then_noop (c : Ctx) (sb : Bool) (slv ep : ℚ)
    (st : TickerState)
    (hopn : st.opn = true) (hside : st.side = some Side.long)
    (hsl : st.sl = some slv) (hep : st.entry_price = some ep)
    (hsb : sb = decide (st.last_signal_time = some c.last_ts))
    (hnoSL : ¬(c.i_curr.close ≤ slv)) :
    evalCore c (openStepLong c sb slv ep st).1
      = ((openStepLong c sb slv ep st).1, []) := by
  obtain ⟨f1, f2, _⟩ := openStepLong_fields c sb slv ep st
  obtain ⟨e1, e2⟩ := openStepLong_noSL_state c sb slv ep st hnoSL
  apply evalCore_openLong_noop c (openStepLong c sb slv ep st).1 slv ep
  · rw [e1, hopn]
  · rw [e2, hside]
  · rw [f2, hsl]
  · rw [f1, hep]
  · exact hnoSL
  · by_cases hth : ep * (1 + TP1) ≤ c.i_curr.close
    · have h4 := openStepLong_tp1_after c sb slv ep st hth
      simp [h4]
    · simp [decide_eq_false hth]
  · by_cases hth : ep * (1 + TP2) ≤ c.i_curr.close
    · have h4 := openStepLong_tp2_after c sb slv ep st hth
      simp [h4]
    · simp [decide_eq_false hth]
  · by_cases hcross : crossed_down c.i_prev.maS c.i_prev.maL
        c.i_curr.maS c.i_curr.maL = true
    · have hlst : (openStepLong c sb slv ep st).1.last_signal_time
          = some c.last_ts := by
        by_cases hsb0 : st.last_signal_time = some c.last_ts
        · rcases openStepLong_lst c sb slv ep st with h | h
          · rw [h]
            exact hsb0
          · exact h
        · apply openStepLong_lst_set c sb slv ep st
          rw [hsb]
          simp [hcross, hsb0]
      rw [hlst]
      simp
    · have hcf : crossed_down c.i_prev.maS c.i_prev.maL
          c.i_curr.maS c.i_curr.maL = false := by simpa using hcross
      simp [hcf]

/-- Re-evaluating the result of an open-short step that did not breach the
stop does nothing. -/
theorem openStepShort_then_noop (c : Ctx) (sb : Bool) (slv ep : ℚ)
    (st : TickerState)
    (hopn : st.opn = true) (hside : st.side = some Side.short)
    (hsl : st.sl = some slv) (hep : st.entry_price = some ep)
    (hsb : sb = decide (st.last_signal_time = some c.last_ts))
    (hnoSL : ¬(slv ≤ c.i_curr.close)) :
    evalCore c (openStepShort c sb slv ep st).1
      = ((openStepShort c sb slv ep st).1, []) := by
  obtain ⟨f1, f2, _⟩ := openStepShort_fields c sb slv ep st
  obtain ⟨e1, e2⟩ := openStepShort_noSL_state c sb slv ep st hnoSL
  apply evalCore_openShort_noop c (openStepShort c sb slv ep st).1 slv ep
  · rw [e1, hopn]
  · rw [e2, hside]
  · rw [f2, hsl]
  · rw [f1, hep]
  · exact hnoSL
  · by_cases hth : c.i_curr.close ≤ ep * (1 - TP1)
    · have h4 := openStepShort_tp1_after c sb slv ep st hth
      simp [h4]
    · simp [decide_eq_false hth]
  · by_cases hth : c.i_curr.close ≤ ep * (1 - TP2)
    · have h4 := openStepShort_tp2_after c sb slv ep st hth
      simp [h4]
    · simp [decide_eq_false hth]
  · by_cases hcross : crossed_up c.i_prev.maS c.i_prev.maL
        c.i_curr.maS c.i_curr.maL = true
    · have hlst : (openStepShort c sb slv ep st).1.last_signal_time
          = some c.last_ts := by
        by_cases hsb0 : st.last_signal_time = some c.last_ts
        · rcases openStepShort_lst c sb slv ep st with h | h
          · rw [h]
            exact hsb0
          · exact h
        · apply openStepShort_lst_set c sb slv ep st
          rw [hsb]
          simp [hcross, hsb0]
      rw [hlst]
      simp
    · have hcf : crossed_up c.i_prev.maS c.i_prev.maL
          c.i_curr.maS c.i_curr.maL = false := by simpa using hcross
      simp [hcf]

/-- A FLAT record is left untouched when both signals are off or the
same-bar guard is active. -/
theorem evalCore_flat_noop (c : Ctx) (st4 : TickerState)
    (hopn : st4.opn = false)
    (h : (buySignal c = false ∧ sellSignal c = false)
      ∨ st4.last_signal_time = some c.last_ts) :
    evalCore c st4 = (st4, []) := by
  rcases h with ⟨hb, hs⟩ | hl
  · simp [evalCore, hopn, hb, hs]
  · simp [evalCore, hopn, hl]

/-- Idempotence of one evaluation step: re-running the step on its own
output (same indicator context) is a no-op — provided the first run did not
take the stop-loss transition while an entry signal stood ready to re-fire
(no stop-loss alert, or no entry signal, or the same-bar guard active). -/
theorem evalCore_idem (c : Ctx) (st : TickerState)
    (hwf : Wf st)
    (hpos : 0 < c.i_curr.close)
    (hslf : c.swingLow * (1 - SL_BUFFER) < c.i_curr.close)
    (hshf : c.i_curr.close < c.swingHigh * (1 + SL_BUFFER))
    (hno : (evalCore c st).2.countP isSL = 0
        ∨ (buySignal c = false ∧ sellSignal c = false)
        ∨ st.last_signal_time = some c.last_ts) :
    evalCore c (evalCore c st).1 = ((evalCore c st).1, []) := by
  by_cases hopn : st.opn = true
  · obtain ⟨hep0, hsl0⟩ := hwf hopn
    obtain ⟨ep, hep⟩ := Option.isSome_iff_exists.mp hep0
    obtain ⟨slv, hsl⟩ := Option.isSome_iff_exists.mp hsl0
    rcases hside : st.side with _ | s
    · have he : evalCore c st = (st, []) := by
        simp [evalCore, hopn, hside]
      rw [he]
      exact he
    · cases s
      · have he : evalCore c st =
            openStepLong c (decide (st.last_signal_time = some c.last_ts))
              slv ep st := by
          simp [evalCore, hopn, hside, hsl, hep]
        by_cases hbr : c.i_curr.close ≤ slv
        · have hmem : Alert.stopLoss Side.long ∈ (evalCore c st).2 := by
            rw [he]
            exact (openStepLong_sl_mem c _ slv ep st Side.long).mpr ⟨rfl, hbr⟩
          have hno23 : (buySignal c = false ∧ sellSignal c = false)
              ∨ st.last_signal_time = some c.last_ts := by
            rcases hno with h | h | h
            · exfalso
              have h2 := List.countP_eq_zero.mp h _ hmem
              simp [isSL] at h2
            · exact Or.inl h
            · exact Or.inr h
          have hflat : (evalCore c st).1.opn = false := by
            rw [he]
            exact (openStepLong_sl_flat c _ slv ep st hbr).1
          apply evalCore_flat_noop c _ hflat
          rcases hno23 with hbs | hsb0
          · exact Or.inl hbs
          · refine Or.inr ?_
            rw [he]
            rcases openStepLong_lst c
                (decide (st.last_signal_time = some c.last_ts)) slv ep st
              with h | h
            · rw [h]
              exact hsb0
            · exact h
        · rw [he]
          exact openStepLong_then_noop c _ slv ep st hopn hside hsl hep rfl hbr
      · have he : evalCore c st =
            openStepShort c (decide (st.last_signal_time = some c.last_ts))
              slv ep st := by
          simp [evalCore, hopn, hside, hsl, hep]
        by_cases hbr : slv ≤ c.i_curr.close
        · have hmem : Alert.stopLoss Side.short ∈ (evalCore c st).2 := by
            rw [he]
            exact (openStepShort_sl_mem c _ slv ep st Side.short).mpr ⟨rfl, hbr⟩
          have hno23 : (buySignal c = false ∧ sellSignal c = false)
              ∨ st.last_signal_time = some c.last_ts := by
            rcases hno with h | h | h
            · exfalso
              have h2 := List.countP_eq_zero.mp h _ hmem
              simp [isSL] at h2
            · exact Or.inl h
            · exact Or.inr h
          have hflat : (evalCore c st).1.opn = false := by
            rw [he]
            exact (openStepShort_sl_flat c _ slv ep st hbr).1
          apply evalCore_flat_noop c _ hflat
          rcases hno23 with hbs | hsb0
          · exact Or.inl hbs
          · refine Or.inr ?_
            rw [he]
            rcases openStepShort_lst c
                (decide (st.last_signal_time = some c.last_ts)) slv ep st
              with h | h
            · rw [h]
              exact hsb0
            · exact h
        · rw [he]
          exact openStepShort_then_noop c _ slv ep st hopn hside hsl hep rfl hbr
  · have hopn2 : st.opn = false := by simpa using hopn
    by_cases h1 : (buySignal c
        && !(decide (st.last_signal_time = some c.last_ts))) = true
    · have he : evalCore c st = (entryStateLong c, [Alert.entry Side.long]) := by
        simp [evalCore, hopn2, h1]
      rw [he]
      exact evalCore_entryLong_noop c hpos hslf
    · by_cases h2 : (sellSignal c
          && !(decide (st.last_signal_time = some c.last_ts))) = true
      · have he : evalCore c st =
            (entryStateShort c, [Alert.entry Side.short]) := by
          simp [evalCore, hopn2, h1, h2]
        rw [he]
        exact evalCore_entryShort_noop c hpos hshf
      · have he : evalCore c st = (st, []) := by
          simp [evalCore, hopn2, h1, h2]
        rw [he]
        exact he

/-- C2 as amended: re-running the evaluation against the same bar series
and the state produced by the first run yields that state back and emits no
alert at all — provided the first run did not emit a stop-loss alert while
the bar carried a live entry signal.  Precisely, re-evaluation is a no-op
whenever (a) the first run emitted no stop-loss alert, or (b) the bar
produces no entry signal, or (c) the stored record's
`last_signal_time` already equals the bar's timestamp (same-bar guard).
The hypothesis on the bars is that they are well-formed (positive prices,
`low ≤ close ≤ high`). -/
theorem claim_c2_amended (t : String) (daily intra : List Bar) (s0 : StateMap)
    (hwfb : ∀ b ∈ intra, BarWf b)
    (hwfs : Wf (getStD s0 t initState))
    (hno : (evaluate_ticker t daily intra s0).2.countP isSL = 0
        ∨ noSignal daily intra = true
        ∨ (∀ c2, computeCtx daily intra = some c2 →
            (getStD s0 t initState).last_signal_time = some c2.last_ts)) :
    (evaluate_ticker t daily intra (evaluate_ticker t daily intra s0).1).1
      = (evaluate_ticker t daily intra s0).1
    ∧ (evaluate_ticker t daily intra (evaluate_ticker t daily intra s0).1).2
      = [] := by
  rcases hc : computeCtx daily intra with _ | c
  · constructor <;> simp [evaluate_ticker, hc]
  · obtain ⟨hf1, hf2, hf3⟩ := computeCtx_facts daily intra c hc hwfb
    have hno2 : (evalCore c (getStD s0 t initState)).2.countP isSL = 0
        ∨ (buySignal c = false ∧ sellSignal c = false)
        ∨ (getStD s0 t initState).last_signal_time = some c.last_ts := by
      rcases hno with h | h | h
      · left
        have h2 : (evaluate_ticker t daily intra s0).2
            = (evalCore c (getStD s0 t initState)).2 := by
          simp [evaluate_ticker, hc]
        rwa [h2] at h
      · right
        left
        unfold noSignal at h
        rw [hc] at h
        simpa using h
      · right
        right
        exact h c hc
    have hidem := evalCore_idem c (getStD s0 t initState) hwfs hf1 hf2 hf3 hno2
    have hrun1 : (evaluate_ticker t daily intra s0).1
        = setSt s0 t (evalCore c (getStD s0 t initState)).1 := by
      simp [evaluate_ticker, hc]
    have hget : getStD
        (setSt s0 t (evalCore c (getStD s0 t initState)).1) t initState
        = (evalCore c (getStD s0 t initState)).1 := by
      simp [getStD, getSt_setSt_self]
    constructor
    · rw [hrun1]
      simp only [evaluate_ticker, hc]
      rw [hget, hidem]
      exact setSt_self _ t _ (getSt_setSt_self s0 t _)
    · rw [hrun1]
      simp only [evaluate_ticker, hc]
      rw [hget, hidem]

/-- The intraday close series of the C2 counterexample: a long plateau at
120, a decline, a flat stretch, and a sharp final pop to 99 that produces a
golden cross with rising RSI while sitting below the stale stop level. -/
def intraCloseCE (i : ℕ) : ℚ :=
  if i < 20 then 120
  else if i < 30 then 158 - 2 * (i : ℚ)
  else if i < 44 then 95
  else if i < 49 then 94
  else 99

/-- Fifty well-formed intraday bars realizing `intraCloseCE`. -/
def intraCE : List Bar := (List.range 50).map (fun i => mkBar i (intraCloseCE i))

/-- Sixty daily bars with rising closes: the daily trend filter allows
buying. -/
def dailyCE : List Bar := (List.range 60).map (fun i => mkBar i ((i : ℚ) + 1))

/-- The persisted state of the C2 counterexample: an open long from an
earlier bar, entry 120, stop 110, no alert yet on this bar. -/
def stateCE : StateMap :=
  [("X", { opn := true, side := some Side.long, entry_price := some 120,
           entry_time := some 0, sl := some 110, tp1_sent := false,
           tp2_sent := false, last_signal_time := none })]

/-- C2 counterexample: on these bars the first run takes the stop-loss
transition (99 ≤ 110) and the second run — same bars, state produced by the
first run — opens a fresh long position and emits a second alert for the
same bar timestamp: the evaluation is not idempotent as claimed.  The bars
are well-formed and the stored record is well-formed. -/
theorem claim_c2_counterexample :
    (∀ b ∈ intraCE, BarWf b)
    ∧ Wf (getStD stateCE "X" initState)
    ∧ Alert.stopLoss Side.long ∈ (evaluate_ticker "X" dailyCE intraCE stateCE).2
    ∧ Alert.entry Side.long ∈
        (evaluate_ticker "X" dailyCE intraCE
          (evaluate_ticker "X" dailyCE intraCE stateCE).1).2
    ∧ ((evaluate_ticker "X" dailyCE intraCE
          (evaluate_ticker "X" dailyCE intraCE stateCE).1).1
        = (evaluate_ticker "X" dailyCE intraCE stateCE).1 → False) :=
  of_decide_eq_true (by with_unfolding_all rfl)

/-- Witness for the amended C2: constant bars (no signal) and a stored FLAT
record; the second run returns the first run's state and emits nothing. -/
theorem claim_c2_witness :
    (evaluate_ticker "X" dailyK intraK
        (evaluate_ticker "X" dailyK intraK [("X", initState)]).1).1
      = (evaluate_ticker "X" dailyK intraK [("X", initState)]).1
    ∧ (evaluate_ticker "X" dailyK intraK
        (evaluate_ticker "X" dailyK intraK [("X", initState)]).1).2 = [] :=
  claim_c2_amended "X" dailyK intraK [("X", initState)]
    (of_decide_eq_true (by with_unfolding_all rfl))
    (of_decide_eq_true (by with_unfolding_all rfl))
    (Or.inr (Or.inl (of_decide_eq_true (by with_unfolding_all rfl))))

end SwingNotifier
